import Mathlib

/-!
# Verification of `microblog-render`

A shallow embedding, in Lean 4, of the two source files of the
`sio/microblog-render` repository:

* `src/microblog/renderers.py` — pure text-to-HTML renderers;
* `src/microblog/cli.py` — argument validation, persistent-state
  load/save, and the `open` action.

Python strings are modelled as `List Char` (Unicode scalar values).
Every definition is translated from the source; the few places where a
behaviour of the Python runtime or of a library routine is embedded
(rather than lines of this repository) carry a comment saying which
routine they model.
-/

/-- Convert a Lean string literal to the `List Char` representation used
throughout this development. -/
def strL (s : String) : List Char := s.toList

/-! ## Python string primitives -/

/-- Model of Python's notion of a whitespace character, as used by
`str.strip`, `str.split()` and the regex class `\S` on `str` inputs:
ASCII whitespace, the C1 separators, and the Unicode space separators. -/
def pyIsSpace (c : Char) : Bool :=
  c = ' ' || c = '\t' || c = '\n' || c = '\r' || c = '\x0b' || c = '\x0c' ||
  (28 ≤ c.toNat && c.toNat ≤ 31) || c.toNat = 0x85 || c.toNat = 0xa0 ||
  c.toNat = 0x1680 || (0x2000 ≤ c.toNat && c.toNat ≤ 0x200a) ||
  c.toNat = 0x2028 || c.toNat = 0x2029 || c.toNat = 0x202f ||
  c.toNat = 0x205f || c.toNat = 0x3000

/-- `allWS l` models Python's `not l.strip()`: the string is empty or
consists of whitespace only. -/
def allWS (l : List Char) : Bool := l.all pyIsSpace

/-- Model of the line-boundary characters recognised by Python's
`str.splitlines` (besides the two-character boundary `\r\n`). -/
def isLineBoundary (c : Char) : Bool :=
  c = '\n' || c = '\r' || c = '\x0b' || c = '\x0c' ||
  c.toNat = 28 || c.toNat = 29 || c.toNat = 30 ||
  c.toNat = 0x85 || c.toNat = 0x2028 || c.toNat = 0x2029

/-- Model of Python's `str.splitlines()`: split at every line boundary,
treating `\r\n` as a single boundary, and do not report a final empty
line for a trailing boundary. -/
def pySplitlines : List Char → List (List Char)
  | [] => []
  | '\r' :: '\n' :: rest => [] :: pySplitlines rest
  | c :: rest =>
    if isLineBoundary c then
      [] :: pySplitlines rest
    else
      match pySplitlines rest with
      | [] => [[c]]
      | l :: ls => (c :: l) :: ls

/-- Model of Python's `str.split('\n\n')` (used by `plaintext` to cut the
body into paragraphs): split at non-overlapping occurrences of two
consecutive newlines, scanning left to right. -/
def splitPar : List Char → List (List Char)
  | [] => [[]]
  | '\n' :: '\n' :: rest => [] :: splitPar rest
  | c :: rest =>
    match splitPar rest with
    | [] => [[c]]
    | l :: ls => (c :: l) :: ls

/-- Model of Python's `str.replace(old, new)` for a one-character `old`,
which is the only form `html.escape` uses. -/
def pyReplaceChar (old : Char) (new : List Char) (s : List Char) : List Char :=
  s.flatMap (fun c => if c = old then new else [c])

/-- Model of the standard library's `html.escape(s)` with its default
`quote=True`: the five sequential single-character replacements. -/
def escapeHtml (s : List Char) : List Char :=
  pyReplaceChar '\'' (strL "&#x27;")
    (pyReplaceChar '"' (strL "&quot;")
      (pyReplaceChar '>' (strL "&gt;")
        (pyReplaceChar '<' (strL "&lt;")
          (pyReplaceChar '&' (strL "&amp;") s))))

/-- The per-character table realised by the five replacements of
`html.escape` (the replacements commute past each other because no
entity string contains a character replaced later). -/
def escHtmlChar (c : Char) : List Char :=
  if c = '&' then strL "&amp;"
  else if c = '<' then strL "&lt;"
  else if c = '>' then strL "&gt;"
  else if c = '"' then strL "&quot;"
  else if c = '\'' then strL "&#x27;"
  else [c]

/-- `joinSep sep l` models Python's `sep.join(l)`. -/
def joinSep (sep : List Char) : List (List Char) → List Char
  | [] => []
  | [x] => x
  | x :: xs => x ++ sep ++ joinSep sep xs

/-- Concatenation of a list of strings (used to state that the URL
segmentation of a paragraph is lossless). -/
def concatAll : List (List Char) → List Char
  | [] => []
  | x :: xs => x ++ concatAll xs

/-- `startsWithSeg needle hay`: `needle` is a prefix of `hay`. -/
def startsWithSeg : List Char → List Char → Bool
  | [], _ => true
  | _ :: _, [] => false
  | a :: as, b :: bs => a = b && startsWithSeg as bs

/-- `containsSeg needle hay`: `needle` occurs as a contiguous segment of
`hay` (Python's `needle in hay` on strings). -/
def containsSeg (needle : List Char) : List Char → Bool
  | [] => startsWithSeg needle []
  | b :: rest => startsWithSeg needle (b :: rest) || containsSeg needle rest

/-! ## The URL regular expression

`renderers.py` compiles
`URL = re.compile(r'((?:https?|mailto|ftp|gopher|gemini)://\S+)', re.IGNORECASE)`
and uses `URL.split` and `URL.fullmatch`.  The functions below implement
exactly the backtracking semantics of that pattern: alternatives are
tried in the order written (with `https?` preferring the longer `https`),
`\S+` is greedy, and matching is case-insensitive on the ASCII letters
the scheme words consist of. -/

/-- Consume `pat` (a lowercase pattern) from the front of `s`,
case-insensitively; return the consumed original characters and the
rest. -/
def consumeCI : List Char → List Char → Option (List Char × List Char)
  | [], s => some ([], s)
  | _ :: _, [] => none
  | p :: ps, c :: cs =>
    if c.toLower = p then
      (consumeCI ps cs).map (fun pr => (c :: pr.1, pr.2))
    else
      none

/-- After a scheme word has been consumed (as `con`), match `://` followed
by one or more non-whitespace characters (greedy), exactly as
`://\S+` does. -/
def matchTail (con rest : List Char) : Option (List Char × List Char) :=
  match rest with
  | ':' :: '/' :: '/' :: r =>
    let ns := r.takeWhile (fun c => !pyIsSpace c)
    if ns.isEmpty then none
    else some (con ++ strL "://" ++ ns, r.dropWhile (fun c => !pyIsSpace c))
  | _ => none

/-- The scheme alternatives of the `URL` pattern, in the order the regex
engine tries them (`https?` expands to `https` before `http`). -/
def urlSchemes : List (List Char) :=
  [strL "https", strL "http", strL "mailto", strL "ftp", strL "gopher", strL "gemini"]

/-- Try each scheme alternative in order at the current position. -/
def firstSchemeMatch : List (List Char) → List Char → Option (List Char × List Char)
  | [], _ => none
  | pat :: pats, s =>
    match consumeCI pat s with
    | some (con, rest) =>
      match matchTail con rest with
      | some res => some res
      | none => firstSchemeMatch pats s
    | none => firstSchemeMatch pats s

/-- Attempt to match the `URL` pattern anchored at the start of `s`;
return the matched text and the rest of `s`. -/
def matchURLAt (s : List Char) : Option (List Char × List Char) :=
  firstSchemeMatch urlSchemes s

/-- Model of `URL.fullmatch(s)`: the anchored match must consume all of
`s` (the greedy `\S+` extends to the first whitespace character or the
end, and nothing in the pattern can match whitespace, so the anchored
match reaches the end exactly when `fullmatch` succeeds). -/
def urlFullmatch (s : List Char) : Bool :=
  match matchURLAt s with
  | some (_, rest) => rest.isEmpty
  | none => false

/-- Find the leftmost match of the `URL` pattern in `s`: returns the text
before the match, the match, and the rest. -/
def findURL : List Char → Option (List Char × List Char × List Char)
  | [] => none
  | c :: rest =>
    match matchURLAt (c :: rest) with
    | some (m, r) => some ([], m, r)
    | none => (findURL rest).map (fun pr => (c :: pr.1, pr.2.1, pr.2.2))

/-- Fuelled worker for `urlSplit` (the fuel only bounds the number of
matches, which is at most the length of the input; `urlSplit` always
supplies enough). -/
def urlSplitF : Nat → List Char → List (List Char)
  | 0, s => [s]
  | Nat.succ f, s =>
    match findURL s with
    | none => [s]
    | some (p, m, r) => p :: m :: urlSplitF f r

/-- Model of `URL.split(s)`: because the pattern has one capturing group,
the result interleaves the text between matches with the matches
themselves, starting and ending with (possibly empty) non-match text. -/
def urlSplit (s : List Char) : List (List Char) :=
  urlSplitF (s.length + 1) s

/-! ## The renderers (`renderers.py`) -/

/-- Translation of `_split_header`: if the text has more than two lines,
the second line is empty and the first is at most 100 characters long,
the first line is the header and the third line onward (rejoined with
`\n`) is the body; otherwise there is no header and the whole text is
the body. -/
def splitHeader (text : List Char) : List Char × List Char :=
  let lines := pySplitlines text
  if 2 < lines.length ∧ lines.getD 1 [] = [] ∧ (lines.getD 0 []).length ≤ 100 then
    (lines.getD 0 [], joinSep (strL "\n") (lines.drop 2))
  else
    ([], text)

/-- The body of the chunk loop of `plaintext`: a chunk that fully matches
the `URL` pattern becomes an anchor whose `href` is the raw chunk and
whose label is the escaped chunk; any other chunk is escaped. -/
def renderChunk (chunk : List Char) : List Char :=
  if urlFullmatch chunk then
    strL "<a href=\"" ++ chunk ++ strL "\">" ++ escapeHtml chunk ++ strL "</a>"
  else
    escapeHtml chunk

/-- The paragraph loop body of `plaintext`: split on the URL pattern,
drop whitespace-only chunks, render each chunk, join the rendered chunks
with `\n` and wrap in a paragraph tag. -/
def renderParagraph (p : List Char) : List Char :=
  strL "<p>" ++
    joinSep (strL "\n") (((urlSplit p).filter (fun c => !allWS c)).map renderChunk) ++
    strL "</p>"

/-- All paragraph tags produced from a body: paragraphs are cut at double
newlines and whitespace-only paragraphs are discarded. -/
def renderParagraphs (body : List Char) : List (List Char) :=
  ((splitPar body).filter (fun p => !allWS p)).map renderParagraph

/-- Translation of `plaintext`: optional `<h1>` for a non-empty header,
then the paragraph tags, joined with newlines. -/
def plaintext (text : List Char) : List Char :=
  let hb := splitHeader text
  joinSep (strL "\n")
    ((if hb.1.isEmpty then [] else [strL "<h1>" ++ escapeHtml hb.1 ++ strL "</h1>"]) ++
      renderParagraphs hb.2)

/-- Translation of `wikitext`: delegates to `plaintext`. -/
def wikitext (text : List Char) : List Char :=
  plaintext text

/-- Translation of `markdown`: takes an (unused) optional header override
and delegates to `plaintext`. -/
def markdown (text : List Char) (_header : Option (List Char)) : List Char :=
  plaintext text

/-- The header-detection condition of `_split_header`, as a Boolean (used
to state claims about when a header is found). -/
def headerCond (text : List Char) : Bool :=
  decide (2 < (pySplitlines text).length ∧
          (pySplitlines text).getD 1 [] = [] ∧
          ((pySplitlines text).getD 0 []).length ≤ 100)

/-- `markupFree s`: `s` contains none of the four characters that
`html.escape` rewrites into entities besides `&` itself. -/
def markupFree (s : List Char) : Bool :=
  s.all (fun c => !(c = '<' || c = '>' || c = '"' || c = '\''))

/-! ## The persistent-state file format

`cli.py` serialises the dataclass with `toml.dump(asdict(self), temp)` and
reads it back with `toml.load(state)`.  The state files this program
writes consist of lines `key = "basic string"`; the definitions below
embed the fragment of the TOML grammar those files exercise: bare keys
and double-quoted basic strings with the standard escapes
(`\\ \" \b \t \n \f \r` and `\uXXXX` for the remaining control
characters), exactly the escapes the TOML encoder emits. -/

/-- The sixteen lowercase hexadecimal digit characters. -/
def hexDig (d : Nat) : Char :=
  if d < 10 then Char.ofNat (48 + d) else Char.ofNat (87 + d)

/-- Numeric value of a hexadecimal digit character (either case). -/
def hexVal (c : Char) : Option Nat :=
  if 48 ≤ c.toNat ∧ c.toNat ≤ 57 then some (c.toNat - 48)
  else if 97 ≤ c.toNat ∧ c.toNat ≤ 102 then some (c.toNat - 87)
  else if 65 ≤ c.toNat ∧ c.toNat ≤ 70 then some (c.toNat - 55)
  else none

/-- Four-digit hexadecimal rendering of `n` (for `\uXXXX` escapes). -/
def hex4 (n : Nat) : List Char :=
  [hexDig (n / 4096 % 16), hexDig (n / 256 % 16), hexDig (n / 16 % 16), hexDig (n % 16)]

/-- TOML basic-string escaping of one character, as performed by the
encoder behind `toml.dump`. -/
def escChar (c : Char) : List Char :=
  if c = '\\' then ['\\', '\\']
  else if c = '"' then ['\\', '"']
  else if c = '\x08' then ['\\', 'b']
  else if c = '\t' then ['\\', 't']
  else if c = '\n' then ['\\', 'n']
  else if c = '\x0c' then ['\\', 'f']
  else if c = '\r' then ['\\', 'r']
  else if c.toNat < 0x20 ∨ c.toNat = 0x7f then '\\' :: 'u' :: hex4 c.toNat
  else [c]

/-- TOML basic-string escaping of a whole string. -/
def escStr (s : List Char) : List Char := s.flatMap escChar

/-- A double-quoted TOML basic string. -/
def dumpBasic (s : List Char) : List Char := '"' :: escStr s ++ ['"']

/-- Parse the body of a TOML basic string (the opening quote already
consumed): returns the decoded content and the input after the closing
quote. -/
def parseBody : List Char → Option (List Char × List Char)
  | [] => none
  | c :: rest =>
    if c = '"' then some ([], rest)
    else if c = '\\' then
      match rest with
      | [] => none
      | e :: rest2 =>
        if e = '\\' then (parseBody rest2).map (fun pr => ('\\' :: pr.1, pr.2))
        else if e = '"' then (parseBody rest2).map (fun pr => ('"' :: pr.1, pr.2))
        else if e = 'b' then (parseBody rest2).map (fun pr => ('\x08' :: pr.1, pr.2))
        else if e = 't' then (parseBody rest2).map (fun pr => ('\t' :: pr.1, pr.2))
        else if e = 'n' then (parseBody rest2).map (fun pr => ('\n' :: pr.1, pr.2))
        else if e = 'f' then (parseBody rest2).map (fun pr => ('\x0c' :: pr.1, pr.2))
        else if e = 'r' then (parseBody rest2).map (fun pr => ('\r' :: pr.1, pr.2))
        else if e = 'u' then
          match rest2 with
          | h1 :: h2 :: h3 :: h4 :: rest3 =>
            match hexVal h1, hexVal h2, hexVal h3, hexVal h4 with
            | some v1, some v2, some v3, some v4 =>
              (parseBody rest3).map
                (fun pr => (Char.ofNat (((v1 * 16 + v2) * 16 + v3) * 16 + v4) :: pr.1, pr.2))
            | _, _, _, _ => none
          | _ => none
        else none
    else (parseBody rest).map (fun pr => (c :: pr.1, pr.2))

/-- A character allowed in a TOML bare key. -/
def keyChar (c : Char) : Bool :=
  c.isAlphanum || c = '_' || c = '-'

/-- Drop the blanks TOML permits around `=`. -/
def dropBlanks (l : List Char) : List Char :=
  l.dropWhile (fun c => c = ' ' || c = '\t')

/-- Parse one `key = "value"` line of a state file. -/
def parseLine (l : List Char) : Option (List Char × List Char) :=
  let l1 := dropBlanks l
  let key := l1.takeWhile keyChar
  if key.isEmpty then none
  else
    match dropBlanks (l1.dropWhile keyChar) with
    | '=' :: r2 =>
      match dropBlanks r2 with
      | '"' :: body =>
        match parseBody body with
        | some (content, after) =>
          if (dropBlanks after).isEmpty then some (key, content) else none
        | none => none
      | _ => none
    | _ => none

/-- Split a file into its `\n`-separated lines. -/
def splitNL : List Char → List (List Char)
  | [] => [[]]
  | c :: rest =>
    if c = '\n' then [] :: splitNL rest
    else
      match splitNL rest with
      | [] => [[c]]
      | l :: ls => (c :: l) :: ls

/-- Model of `toml.load` on the key/value documents this program reads:
every non-blank line must parse as `key = "basic string"`; any line that
does not (for instance a corrupt file) is a parse error, modelled as
`none` (`toml.load` raises `TomlDecodeError` there). -/
def loads (file : List Char) : Option (List (List Char × List Char)) :=
  ((splitNL file).filter (fun l => !allWS l)).mapM parseLine

/-! ## The command processor (`cli.py`) -/

/-- The in-memory state: the single dataclass field `repo`, plus the
dynamically `setattr`-ed attributes a loaded state file may add beyond
the declared fields (an association list, later keys overriding). -/
structure CLIState where
  repo : List Char
  extra : List (List Char × List Char)
  deriving Repr, DecidableEq

/-- The compile-time defaults of the dataclass: `repo = ''`. -/
def defaultState : CLIState := ⟨[], []⟩

/-- Overwrite the binding of `k` in an association list (Python's
attribute assignment for an already-present dynamic attribute). -/
def setAssoc (l : List (List Char × List Char)) (k v : List Char) :
    List (List Char × List Char) :=
  if l.any (fun kv => kv.1 = k) then
    l.map (fun kv => if kv.1 = k then (k, v) else kv)
  else
    l ++ [(k, v)]

/-- Model of `setattr(self, key, value)` in `_load`: a key naming the
declared field updates it; any other key becomes a dynamic attribute. -/
def setAttr (st : CLIState) (k v : List Char) : CLIState :=
  if k = strL "repo" then { st with repo := v }
  else { st with extra := setAssoc st.extra k v }

/-- The loop of `_load`: copy every key of the parsed file onto the
in-memory state.  Total: loading never fails once the file has parsed,
whatever keys it contains. -/
def applyLoaded (st : CLIState) (kvs : List (List Char × List Char)) : CLIState :=
  kvs.foldl (fun s kv => setAttr s kv.1 kv.2) st

/-- Model of `asdict(self)` in `_dump`: `dataclasses.asdict` serialises
exactly the declared dataclass fields — here the single field `repo` —
and never the dynamic attributes. -/
def dumpRecord (st : CLIState) : List (List Char × List Char) :=
  [(strL "repo", st.repo)]

/-- Model of `_dump`'s `toml.dump(asdict(self), temp)`: one
`key = "value"` line per record entry. -/
def dumps (st : CLIState) : List Char :=
  concatAll ((dumpRecord st).map (fun kv => kv.1 ++ strL " = " ++ dumpBasic kv.2 ++ strL "\n"))

/-- The filesystem facts `parse_args` and the state machinery consult:
existence and directory-ness of paths, and the contents of the state
file path if it exists. -/
structure FileSystem where
  pathExists : List Char → Bool
  isDir : List Char → Bool
  file : List Char → Option (List Char)

/-- Model of `pathlib` parent for the path shapes exercised here: strip
any trailing slashes, then cut at the last slash (no slash at all gives
`.`, a root-only remainder gives `/`). -/
def parentPath (p : List Char) : List Char :=
  let q := (p.reverse.dropWhile (fun c => c = '/')).reverse
  if q.isEmpty then
    if p.isEmpty then strL "." else strL "/"
  else if q.contains '/' then
    let r := (q.reverse.dropWhile (fun c => c ≠ '/')).reverse
    let r2 := (r.reverse.dropWhile (fun c => c = '/')).reverse
    if r2.isEmpty then strL "/" else r2
  else
    strL "."

/-- Translation of the `--state` default, `os.getenv('MICROBLOG_STATE',
'./microblog.state')`, combined with argparse's flag-over-default
precedence: the flag wins when supplied; otherwise `os.getenv` returns
the variable's value whenever the variable is set — even when it is the
empty string — and the literal default only when it is unset. -/
def resolveStatePath (flag : Option (List Char)) (env : Option (List Char)) : List Char :=
  match flag with
  | some p => p
  | none =>
    match env with
    | some v => v
    | none => strL "./microblog.state"

/-- How one invocation terminates: normally (exit status 0), with an
argparse usage error (`parser.error`, exit status 2), or with an
unhandled exception (exit status 1). -/
inductive ExitStatus where
  | ok
  | usage
  | fatal
  deriving Repr, DecidableEq

/-- Observable outcome of one invocation: the exit kind, the diagnostic
message if any, and the contents of the state-file path afterwards. -/
structure RunResult where
  exit : ExitStatus
  msg : Option (List Char)
  stateFile : Option (List Char)
  deriving Repr, DecidableEq

/-- Translation of one `open` invocation end to end (`main`,
`parse_args`, `MicroblogCLI._load`, `MicroblogCLI.open`,
`MicroblogCLI._dump`):

1. `parse_args` validates the state path's parent, the state path, and
   then the repository's `.git` entry; any failure calls `parser.error`,
   which exits with status 2 before any state is read or written.
2. The constructor runs `_load`.  A missing state file leaves the
   defaults; a file that fails to parse raises `TomlDecodeError`, which
   propagates unhandled (exit status 1 with a traceback).  CPython still
   finalises the partially-constructed object in that case — `self.args`
   was assigned before `_load` — so `__del__` runs `_dump`, which
   atomically replaces the state file with the serialised defaults.
3. Otherwise `open` sets `repo` and teardown `_dump`s the state. -/
def runCLI (fs : FileSystem) (flag env : Option (List Char)) (repoArg : List Char) :
    RunResult :=
  let sp := resolveStatePath flag env
  if !(fs.pathExists (parentPath sp) && fs.isDir (parentPath sp)) then
    ⟨.usage, some (strL "not a directory: " ++ parentPath sp), fs.file sp⟩
  else if fs.isDir sp then
    ⟨.usage, some (strL "directory exists in place of state file: " ++ sp), fs.file sp⟩
  else if !(fs.pathExists (repoArg ++ strL "/.git") && fs.isDir (repoArg ++ strL "/.git")) then
    ⟨.usage, some (strL "not a git repository: " ++ repoArg), fs.file sp⟩
  else
    match fs.file sp with
    | none =>
      ⟨.ok, none, some (dumps { defaultState with repo := repoArg })⟩
    | some content =>
      match loads content with
      | none =>
        ⟨.fatal, some (strL "TomlDecodeError"), some (dumps defaultState)⟩
      | some kvs =>
        ⟨.ok, none, some (dumps { applyLoaded defaultState kvs with repo := repoArg })⟩

/-- The filesystem of the corrupt-state scenario: `--state /s/st` with
`/s` an existing directory, `/r/.git` an existing directory, and the
state file `/s/st` holding `[[[`, which is not parseable TOML. -/
def fsCorrupt : FileSystem :=
  ⟨fun p => p = strL "/s" || p = strL "/r/.git",
   fun p => p = strL "/s" || p = strL "/r/.git",
   fun p => if p = strL "/s/st" then some (strL "[[[") else none⟩

/-- The filesystem of the fresh-open scenario: `--state /s/st` with `/s`
an existing directory, `/r/.git` an existing directory, and no state
file yet. -/
def fsFresh : FileSystem :=
  ⟨fun p => p = strL "/s" || p = strL "/r/.git",
   fun p => p = strL "/s" || p = strL "/r/.git",
   fun _ => none⟩

/-- The filesystem of the missing-repository scenario: `--state /s/st`
with `/s` an existing directory and no `.git` entry under `/r`. -/
def fsNoGit : FileSystem :=
  ⟨fun p => p = strL "/s", fun p => p = strL "/s", fun _ => none⟩

/-! ## Lemmas: HTML escaping -/

theorem pyReplaceChar_nil (o : Char) (n : List Char) : pyReplaceChar o n [] = [] := rfl

theorem pyReplaceChar_cons (o : Char) (n : List Char) (c : Char) (s : List Char) :
    pyReplaceChar o n (c :: s) =
      (if c = o then n else [c]) ++ pyReplaceChar o n s := by
  simp [pyReplaceChar]

theorem pyReplaceChar_append (o : Char) (n : List Char) (a b : List Char) :
    pyReplaceChar o n (a ++ b) = pyReplaceChar o n a ++ pyReplaceChar o n b := by
  simp [pyReplaceChar, List.flatMap_append]

theorem escapeHtml_nil : escapeHtml [] = [] := rfl

theorem escapeHtml_cons (c : Char) (s : List Char) :
    escapeHtml (c :: s) = escHtmlChar c ++ escapeHtml s := by
  by_cases h1 : c = '&'
  · subst h1; simp [escapeHtml, escHtmlChar, pyReplaceChar_cons, pyReplaceChar_append]; decide
  · by_cases h2 : c = '<'
    · subst h2; simp [escapeHtml, escHtmlChar, pyReplaceChar_cons, pyReplaceChar_append]; decide
    · by_cases h3 : c = '>'
      · subst h3; simp [escapeHtml, escHtmlChar, pyReplaceChar_cons, pyReplaceChar_append]; decide
      · by_cases h4 : c = '"'
        · subst h4; simp [escapeHtml, escHtmlChar, pyReplaceChar_cons, pyReplaceChar_append]; decide
        · by_cases h5 : c = '\''
          · subst h5; simp [escapeHtml, escHtmlChar, pyReplaceChar_cons, pyReplaceChar_append]
          · simp [escapeHtml, escHtmlChar, pyReplaceChar_cons, pyReplaceChar_append,
                  h1, h2, h3, h4, h5]

theorem escapeHtml_eq_flatMap (s : List Char) : escapeHtml s = s.flatMap escHtmlChar := by
  induction s with
  | nil => rfl
  | cons c s ih => rw [escapeHtml_cons, ih, List.flatMap_cons]

theorem markupFree_escHtmlChar (c : Char) : markupFree (escHtmlChar c) = true := by
  by_cases h1 : c = '&'
  · subst h1; decide
  · by_cases h2 : c = '<'
    · subst h2; decide
    · by_cases h3 : c = '>'
      · subst h3; decide
      · by_cases h4 : c = '"'
        · subst h4; decide
        · by_cases h5 : c = '\''
          · subst h5; decide
          · simp [escHtmlChar, h1, h2, h3, h4, h5, markupFree, h2, h3, h4, h5]

/-- The output of `html.escape` contains no literal `<`, `>`, `"` or `'`. -/
theorem markupFree_escapeHtml (s : List Char) : markupFree (escapeHtml s) = true := by
  rw [escapeHtml_eq_flatMap]
  induction s with
  | nil => decide
  | cons c s ih =>
    rw [List.flatMap_cons]
    have h1 := markupFree_escHtmlChar c
    simp only [markupFree] at h1 ih ⊢
    rw [List.all_append, h1, ih]
    rfl

/-! ## Lemmas: segment containment -/

theorem startsWithSeg_self_append (n t : List Char) :
    startsWithSeg n (n ++ t) = true := by
  induction n with
  | nil => rfl
  | cons a as ih => simp [startsWithSeg, ih]

theorem containsSeg_of_startsWithSeg (n h : List Char)
    (hs : startsWithSeg n h = true) : containsSeg n h = true := by
  cases h with
  | nil => exact hs
  | cons b r => simp [containsSeg, hs]

theorem containsSeg_append_right (n x h : List Char)
    (hc : containsSeg n h = true) : containsSeg n (x ++ h) = true := by
  induction x with
  | nil => exact hc
  | cons c x ih => simp [containsSeg, ih]

theorem containsSeg_middle (n pre post : List Char) :
    containsSeg n (pre ++ n ++ post) = true := by
  rw [List.append_assoc]
  exact containsSeg_append_right n pre _
    (containsSeg_of_startsWithSeg n _ (startsWithSeg_self_append n post))

theorem joinSep_mem_split (sep : List Char) (l : List (List Char)) (x : List Char)
    (hx : x ∈ l) : ∃ pre post, joinSep sep l = pre ++ x ++ post := by
  induction l with
  | nil => cases hx
  | cons y ys ih =>
    cases hx with
    | head =>
      cases ys with
      | nil => exact ⟨[], [], by simp [joinSep]⟩
      | cons z zs => exact ⟨[], sep ++ joinSep sep (z :: zs), by simp [joinSep]⟩
    | tail _ hmem =>
      obtain ⟨p, q, hpq⟩ := ih hmem
      cases ys with
      | nil => cases hmem
      | cons z zs =>
        refine ⟨y ++ sep ++ p, q, ?_⟩
        simp [joinSep, hpq]

/-! ## Lemmas: the URL segmentation -/

theorem consumeCI_sound (pat : List Char) :
    ∀ s con rest, consumeCI pat s = some (con, rest) → con ++ rest = s := by
  induction pat with
  | nil =>
    intro s con rest h
    simp [consumeCI] at h
    rw [h.1, h.2]
    rfl
  | cons p ps ih =>
    intro s con rest h
    cases s with
    | nil => simp [consumeCI] at h
    | cons c cs =>
      unfold consumeCI at h
      by_cases hl : c.toLower = p
      · rw [if_pos hl] at h
        cases hcc : consumeCI ps cs with
        | none => rw [hcc] at h; simp at h
        | some pr =>
          rw [hcc] at h
          simp at h
          have := ih cs pr.1 pr.2 (by rw [hcc])
          rw [← h.1, ← h.2]
          simp [this]
      · rw [if_neg hl] at h
        cases h
theorem matchTail_sound (con rest m r : List Char)
    (h : matchTail con rest = some (m, r)) : m ++ r = con ++ rest ∧ 0 < m.length := by
  unfold matchTail at h
  split at h
  case _ rr =>
    by_cases hns : (rr.takeWhile (fun c => !pyIsSpace c)).isEmpty
    · simp only [hns, if_true] at h
      cases h
    · simp only [hns, if_false, Option.some.injEq, Prod.mk.injEq] at h
      obtain ⟨rfl, rfl⟩ := h
      constructor
      · simp only [List.append_assoc]
        rw [List.takeWhile_append_dropWhile]
        rfl
      · have h3 : (strL "://").length = 3 := rfl
        simp [List.length_append, h3]
  case _ => cases h

theorem firstSchemeMatch_sound (pats : List (List Char)) (s m r : List Char)
    (h : firstSchemeMatch pats s = some (m, r)) : m ++ r = s ∧ 0 < m.length := by
  induction pats with
  | nil => exact Option.noConfusion h
  | cons pat pats ih =>
    unfold firstSchemeMatch at h
    split at h
    case _ con rest hc =>
      split at h
      case _ res hmt =>
        cases h
        have h1 := consumeCI_sound pat s con rest hc
        have h2 := matchTail_sound con rest m r hmt
        exact ⟨by rw [h2.1, h1], h2.2⟩
      case _ => exact ih h
    case _ => exact ih h

theorem matchURLAt_sound (s m r : List Char) (h : matchURLAt s = some (m, r)) :
    m ++ r = s ∧ 0 < m.length :=
  firstSchemeMatch_sound urlSchemes s m r h

theorem findURL_sound (s : List Char) :
    ∀ p m r, findURL s = some (p, m, r) → p ++ m ++ r = s ∧ 0 < m.length := by
  induction s with
  | nil => intro p m r h; exact Option.noConfusion h
  | cons c cs ih =>
    intro p m r h
    unfold findURL at h
    split at h
    case _ m0 r0 hm =>
      cases h
      have := matchURLAt_sound _ _ _ hm
      simpa using this
    case _ hm =>
      cases hf : findURL cs with
      | none => rw [hf] at h; cases h
      | some pmr =>
        rw [hf] at h
        simp only [Option.map_some', Option.some.injEq] at h
        obtain ⟨p0, m0, r0⟩ := pmr
        have hrec := ih p0 m0 r0 hf
        simp only [Prod.mk.injEq] at h
        obtain ⟨hp, hm2, hr2⟩ := h
        subst hp; subst hm2; subst hr2
        constructor
        · simp only [List.cons_append, List.append_assoc] at hrec ⊢
          rw [hrec.1]
        · exact hrec.2

theorem findURL_rest_lt (s p m r : List Char) (h : findURL s = some (p, m, r)) :
    r.length < s.length := by
  have := findURL_sound s p m r h
  have hlen : p.length + (m.length + r.length) = s.length := by
    rw [← this.1]; simp
  omega

theorem urlSplitF_succ (f : Nat) (s : List Char) :
    urlSplitF (f + 1) s =
      match findURL s with
      | none => [s]
      | some (p, m, r) => p :: m :: urlSplitF f r := rfl

theorem urlSplitF_congr : ∀ (f g : Nat) (s : List Char),
    s.length < f → s.length < g → urlSplitF f s = urlSplitF g s := by
  intro f
  induction f with
  | zero => intro g s hf; omega
  | succ f ih =>
    intro g s hf hg
    cases g with
    | zero => omega
    | succ g =>
      rw [urlSplitF_succ, urlSplitF_succ]
      cases hfind : findURL s with
      | none => rfl
      | some pmr =>
        obtain ⟨p, m, r⟩ := pmr
        have hlt := findURL_rest_lt s p m r hfind
        show p :: m :: urlSplitF f r = p :: m :: urlSplitF g r
        rw [ih g r (by omega) (by omega)]

theorem urlSplit_eq (s : List Char) :
    urlSplit s =
      match findURL s with
      | none => [s]
      | some (p, m, r) => p :: m :: urlSplit r := by
  rw [show urlSplit s = urlSplitF (s.length + 1) s from rfl, urlSplitF_succ]
  cases hfind : findURL s with
  | none => rfl
  | some pmr =>
    obtain ⟨p, m, r⟩ := pmr
    have hlt := findURL_rest_lt s p m r hfind
    show p :: m :: urlSplitF s.length r = p :: m :: urlSplit r
    rw [urlSplitF_congr s.length (r.length + 1) r (by omega) (by omega)]
    rfl

/-- The URL segmentation is lossless: concatenating the segments of
`URL.split` restores the paragraph. -/
theorem concatAll_urlSplit (s : List Char) : concatAll (urlSplit s) = s := by
  generalize hn : s.length = n
  induction n using Nat.strong_induction_on generalizing s with
  | _ n ih =>
    subst hn
    rw [urlSplit_eq]
    cases hfind : findURL s with
    | none => simp [concatAll]
    | some pmr =>
      obtain ⟨p, m, r⟩ := pmr
      have hs := findURL_sound s p m r hfind
      have hlt := findURL_rest_lt s p m r hfind
      show concatAll (p :: m :: urlSplit r) = s
      have hr : concatAll (urlSplit r) = r := ih r.length hlt r rfl
      simp only [concatAll, hr]
      rw [← List.append_assoc]
      exact hs.1

/-! ## Lemmas: the state-file round trip -/

theorem hexVal_hexDig (d : Nat) (h : d < 16) : hexVal (hexDig d) = some d := by
  interval_cases d <;> decide

theorem hexDig_ne_newline (d : Nat) (h : d < 16) : hexDig d ≠ '\n' := by
  interval_cases d <;> decide

theorem parseBody_quote (rest : List Char) : parseBody ('"' :: rest) = some ([], rest) := by
  rw [parseBody.eq_def]
  rfl

theorem parseBody_esc_bs (X : List Char) :
    parseBody ('\\' :: '\\' :: X) = (parseBody X).map (fun pr => ('\\' :: pr.1, pr.2)) := by
  rw [parseBody.eq_def]
  rfl

theorem parseBody_esc_quote (X : List Char) :
    parseBody ('\\' :: '"' :: X) = (parseBody X).map (fun pr => ('"' :: pr.1, pr.2)) := by
  rw [parseBody.eq_def]
  rfl

theorem parseBody_esc_b (X : List Char) :
    parseBody ('\\' :: 'b' :: X) = (parseBody X).map (fun pr => ('\x08' :: pr.1, pr.2)) := by
  rw [parseBody.eq_def]
  rfl

theorem parseBody_esc_t (X : List Char) :
    parseBody ('\\' :: 't' :: X) = (parseBody X).map (fun pr => ('\t' :: pr.1, pr.2)) := by
  rw [parseBody.eq_def]
  rfl

theorem parseBody_esc_n (X : List Char) :
    parseBody ('\\' :: 'n' :: X) = (parseBody X).map (fun pr => ('\n' :: pr.1, pr.2)) := by
  rw [parseBody.eq_def]
  rfl

theorem parseBody_esc_f (X : List Char) :
    parseBody ('\\' :: 'f' :: X) = (parseBody X).map (fun pr => ('\x0c' :: pr.1, pr.2)) := by
  rw [parseBody.eq_def]
  rfl

theorem parseBody_esc_r (X : List Char) :
    parseBody ('\\' :: 'r' :: X) = (parseBody X).map (fun pr => ('\r' :: pr.1, pr.2)) := by
  rw [parseBody.eq_def]
  rfl

theorem parseBody_esc_u (u1 u2 u3 u4 : Char) (X : List Char) :
    parseBody ('\\' :: 'u' :: u1 :: u2 :: u3 :: u4 :: X) =
      match hexVal u1, hexVal u2, hexVal u3, hexVal u4 with
      | some v1, some v2, some v3, some v4 =>
        (parseBody X).map
          (fun pr => (Char.ofNat (((v1 * 16 + v2) * 16 + v3) * 16 + v4) :: pr.1, pr.2))
      | _, _, _, _ => none := by
  rw [parseBody.eq_def]
  rfl

theorem parseBody_raw (c : Char) (X : List Char) (hq : ¬c = '"') (hb : ¬c = '\\') :
    parseBody (c :: X) = (parseBody X).map (fun pr => (c :: pr.1, pr.2)) := by
  rw [parseBody.eq_def]
  simp only [hq, hb, if_false]


theorem parseBody_escStr (s : List Char) :
    ∀ rest, parseBody (escStr s ++ '"' :: rest) = some (s, rest) := by
  induction s with
  | nil => intro rest; exact parseBody_quote rest
  | cons c s ih =>
    intro rest
    have hstep : escStr (c :: s) ++ '"' :: rest = escChar c ++ (escStr s ++ '"' :: rest) := by
      simp [escStr, List.flatMap_cons, List.append_assoc]
    rw [hstep]
    by_cases h1 : c = '\\'
    · subst h1
      show parseBody ('\\' :: '\\' :: (escStr s ++ '"' :: rest)) = some ('\\' :: s, rest)
      rw [parseBody_esc_bs, ih]
      rfl
    · by_cases h2 : c = '"'
      · subst h2
        show parseBody ('\\' :: '"' :: (escStr s ++ '"' :: rest)) = some ('"' :: s, rest)
        rw [parseBody_esc_quote, ih]
        rfl
      · by_cases h3 : c = '\x08'
        · subst h3
          show parseBody ('\\' :: 'b' :: (escStr s ++ '"' :: rest)) = some ('\x08' :: s, rest)
          rw [parseBody_esc_b, ih]
          rfl
        · by_cases h4 : c = '\t'
          · subst h4
            show parseBody ('\\' :: 't' :: (escStr s ++ '"' :: rest)) = some ('\t' :: s, rest)
            rw [parseBody_esc_t, ih]
            rfl
          · by_cases h5 : c = '\n'
            · subst h5
              show parseBody ('\\' :: 'n' :: (escStr s ++ '"' :: rest)) = some ('\n' :: s, rest)
              rw [parseBody_esc_n, ih]
              rfl
            · by_cases h6 : c = '\x0c'
              · subst h6
                show parseBody ('\\' :: 'f' :: (escStr s ++ '"' :: rest)) = some ('\x0c' :: s, rest)
                rw [parseBody_esc_f, ih]
                rfl
              · by_cases h7 : c = '\r'
                · subst h7
                  show parseBody ('\\' :: 'r' :: (escStr s ++ '"' :: rest)) = some ('\r' :: s, rest)
                  rw [parseBody_esc_r, ih]
                  rfl
                · by_cases h8 : c.toNat < 0x20 ∨ c.toNat = 0x7f
                  · have hn : c.toNat < 65536 := by rcases h8 with h | h <;> omega
                    have hesc : escChar c = '\\' :: 'u' :: hex4 c.toNat := by
                      simp [escChar, h1, h2, h3, h4, h5, h6, h7, h8]
                    rw [hesc]
                    have e3 := hexVal_hexDig (c.toNat / 4096 % 16) (Nat.mod_lt _ (by norm_num))
                    have e2 := hexVal_hexDig (c.toNat / 256 % 16) (Nat.mod_lt _ (by norm_num))
                    have e1 := hexVal_hexDig (c.toNat / 16 % 16) (Nat.mod_lt _ (by norm_num))
                    have e0 := hexVal_hexDig (c.toNat % 16) (Nat.mod_lt _ (by norm_num))
                    have hval : ((c.toNat / 4096 % 16 * 16 + c.toNat / 256 % 16) * 16 +
                        c.toNat / 16 % 16) * 16 + c.toNat % 16 = c.toNat := by
                      omega
                    show parseBody ('\\' :: 'u' :: hexDig (c.toNat / 4096 % 16) ::
                        hexDig (c.toNat / 256 % 16) :: hexDig (c.toNat / 16 % 16) ::
                        hexDig (c.toNat % 16) :: (escStr s ++ '"' :: rest)) = some (c :: s, rest)
                    rw [parseBody_esc_u, e3, e2, e1, e0]
                    show (parseBody (escStr s ++ '"' :: rest)).map
                        (fun pr => (Char.ofNat (((c.toNat / 4096 % 16 * 16 + c.toNat / 256 % 16) * 16 +
                          c.toNat / 16 % 16) * 16 + c.toNat % 16) :: pr.1, pr.2)) = some (c :: s, rest)
                    rw [ih]
                    simp only [Option.map_some']
                    rw [hval, Char.ofNat_toNat]
                  · have hesc : escChar c = [c] := by
                      simp [escChar, h1, h2, h3, h4, h5, h6, h7, h8]
                    rw [hesc]
                    show parseBody (c :: (escStr s ++ '"' :: rest)) = some (c :: s, rest)
                    rw [parseBody_raw c _ h2 h1, ih]
                    rfl

theorem escChar_no_newline (c : Char) : '\n' ∉ escChar c := by
  by_cases h1 : c = '\\'
  · subst h1; decide
  · by_cases h2 : c = '"'
    · subst h2; decide
    · by_cases h3 : c = '\x08'
      · subst h3; decide
      · by_cases h4 : c = '\t'
        · subst h4; decide
        · by_cases h5 : c = '\n'
          · subst h5; decide
          · by_cases h6 : c = '\x0c'
            · subst h6; decide
            · by_cases h7 : c = '\r'
              · subst h7; decide
              · by_cases h8 : c.toNat < 0x20 ∨ c.toNat = 0x7f
                · have hesc : escChar c = '\\' :: 'u' :: hex4 c.toNat := by
                    simp [escChar, h1, h2, h3, h4, h5, h6, h7, h8]
                  rw [hesc]
                  intro hmem
                  simp only [hex4, List.mem_cons, List.not_mem_nil, or_false] at hmem
                  rcases hmem with h | h | h | h | h | h
                  · exact absurd h (by decide)
                  · exact absurd h (by decide)
                  · exact hexDig_ne_newline _ (Nat.mod_lt _ (by norm_num)) h.symm
                  · exact hexDig_ne_newline _ (Nat.mod_lt _ (by norm_num)) h.symm
                  · exact hexDig_ne_newline _ (Nat.mod_lt _ (by norm_num)) h.symm
                  · exact hexDig_ne_newline _ (Nat.mod_lt _ (by norm_num)) h.symm
                · have hesc : escChar c = [c] := by
                    simp [escChar, h1, h2, h3, h4, h5, h6, h7, h8]
                  rw [hesc]
                  intro hmem
                  simp at hmem
                  exact h5 hmem.symm

theorem escStr_no_newline (s : List Char) : '\n' ∉ escStr s := by
  induction s with
  | nil => simp [escStr]
  | cons c s ih =>
    simp only [escStr, List.flatMap_cons]
    intro hmem
    rcases List.mem_append.mp hmem with h | h
    · exact escChar_no_newline c h
    · exact ih h

theorem splitNL_append (a b : List Char) (ha : '\n' ∉ a) :
    splitNL (a ++ '\n' :: b) = a :: splitNL b := by
  induction a with
  | nil => simp [splitNL]
  | cons c a ih =>
    have hc : c ≠ '\n' := fun h => ha (h ▸ List.mem_cons_self c a)
    have ha' : '\n' ∉ a := fun h => ha (List.mem_cons_of_mem c h)
    simp only [List.cons_append, splitNL, hc, if_false]
    rw [show a.append ('\n' :: b) = a ++ '\n' :: b from rfl, ih ha']

theorem parseLine_front (X : List Char) :
    parseLine ('r' :: 'e' :: 'p' :: 'o' :: ' ' :: '=' :: ' ' :: '"' :: X) =
      match parseBody X with
      | some (content, after) =>
        if (dropBlanks after).isEmpty then some (strL "repo", content) else none
      | none => none := rfl

theorem parseLine_repo (r : List Char) :
    parseLine (strL "repo = " ++ dumpBasic r) = some (strL "repo", r) := by
  show parseLine ('r' :: 'e' :: 'p' :: 'o' :: ' ' :: '=' :: ' ' :: '"' ::
    (escStr r ++ '"' :: [])) = some (strL "repo", r)
  rw [parseLine_front, parseBody_escStr r []]
  rfl

theorem dumpBasic_no_newline (r : List Char) : '\n' ∉ dumpBasic r := by
  intro hmem
  rcases List.mem_cons.mp hmem with h | hmem2
  · exact absurd h (by decide)
  · rcases List.mem_append.mp hmem2 with h | h
    · exact escStr_no_newline r h
    · exact absurd h (by decide)

theorem line_no_newline (r : List Char) : '\n' ∉ strL "repo = " ++ dumpBasic r := by
  intro hmem
  rcases List.mem_append.mp hmem with h | h
  · exact absurd h (by decide)
  · exact dumpBasic_no_newline r h

theorem dumps_eq (st : CLIState) :
    dumps st = (strL "repo = " ++ dumpBasic st.repo) ++ '\n' :: [] := by
  simp only [dumps, dumpRecord, List.map_cons, List.map_nil, concatAll, List.append_nil,
    List.append_assoc]
  rfl

theorem line_not_allWS (r : List Char) : allWS (strL "repo = " ++ dumpBasic r) = false := by
  show (strL "repo = " ++ dumpBasic r).all pyIsSpace = false
  rw [List.all_append]
  rw [show (strL "repo = ").all pyIsSpace = false from by decide]
  rfl

/-- `toml.load` applied to a file `toml.dump` produced recovers exactly the
dumped record. -/
theorem loads_dumps (st : CLIState) : loads (dumps st) = some [(strL "repo", st.repo)] := by
  rw [loads, dumps_eq, splitNL_append _ _ (line_no_newline st.repo)]
  show ((((strL "repo = " ++ dumpBasic st.repo) :: splitNL []).filter
    (fun l => !allWS l)).mapM parseLine) = some [(strL "repo", st.repo)]
  rw [show splitNL [] = [[]] from rfl]
  rw [List.filter]
  rw [line_not_allWS st.repo]
  show (((strL "repo = " ++ dumpBasic st.repo) :: List.filter _ [[]]).mapM parseLine) = _
  rw [show List.filter (fun l => !allWS l) [[]] = [] from rfl]
  rw [List.mapM_cons, List.mapM_nil, parseLine_repo]
  rfl

/-! ## The claims -/

/-- C8: for every input text, the wiki-markup renderer's output is
byte-identical to the plain-text renderer's output, and for every input
and every header-override value the markdown renderer's output is
byte-identical to the plain-text renderer's output. -/
theorem c8_stub_renderers_equiv :
    ∀ (text : List Char) (hdr : Option (List Char)),
      wikitext text = plaintext text ∧ markdown text hdr = plaintext text :=
  fun _ _ => ⟨rfl, rfl⟩

/-- C4, counterexample: with `MICROBLOG_STATE` set to the empty string and
no `--state` flag, the resolved path is the empty string, not
`./microblog.state` — `os.getenv` falls back to the default only when the
variable is unset. -/
theorem c4_counterexample :
    resolveStatePath none (some []) = [] ∧
    ¬resolveStatePath none (some []) = strL "./microblog.state" :=
  ⟨rfl, by decide⟩

/-- C4, amended: the `--state` flag wins when supplied; otherwise the value
of `MICROBLOG_STATE` is used whenever the variable is set — even when it
is empty — and the literal `./microblog.state` only when it is unset. -/
theorem c4_amended :
    (∀ (p : List Char) (env : Option (List Char)), resolveStatePath (some p) env = p) ∧
    (∀ v : List Char, resolveStatePath none (some v) = v) ∧
    resolveStatePath none none = strL "./microblog.state" :=
  ⟨fun _ _ => rfl, fun _ => rfl, rfl⟩

/-- C2, counterexample: on input `https://e/&` the plain-text renderer
emits the matched URL literally — unescaped — inside the anchor's `href`
attribute, so the `&` of the input appears as literal markup there. -/
theorem c2_counterexample :
    plaintext (strL "https://e/&") =
      strL "<p><a href=\"https://e/&\">https://e/&amp;</a></p>" ∧
    containsSeg (strL "<a href=\"https://e/&\">") (plaintext (strL "https://e/&")) = true :=
  ⟨by decide, by decide⟩

/-- C2, amended: for every chunk, the escaping function's output contains
no literal `<`, `>`, `"` or `'` — so unlinked text segments and anchor
labels, which are rendered through it, never contain those characters as
literal markup — while a chunk that fully matches the URL pattern keeps
its raw, unescaped text as the `href` attribute value. -/
theorem c2_amended (chunk : List Char) :
    markupFree (escapeHtml chunk) = true ∧
    (renderChunk chunk = escapeHtml chunk ∨ urlFullmatch chunk = true) := by
  refine ⟨markupFree_escapeHtml chunk, ?_⟩
  by_cases h : urlFullmatch chunk = true
  · exact Or.inr h
  · rw [Bool.not_eq_true] at h
    exact Or.inl (by simp [renderChunk, h])

/-- C3, counterexample: on the spec's own example paragraph the rendered
output has a newline inserted between the escaped text segments and the
anchor (the chunks are joined with `\n`), so it is not the direct
concatenation the claim describes. -/
theorem c3_counterexample :
    plaintext (strL "See https://example.com/x for details.") =
      strL "<p>See \n<a href=\"https://example.com/x\">https://example.com/x</a>\n for details.</p>" ∧
    plaintext (strL "See https://example.com/x for details.") ≠
      strL "<p>See <a href=\"https://example.com/x\">https://example.com/x</a> for details.</p>" :=
  ⟨by decide, by decide⟩

/-- C3, amended: the URL segmentation itself is lossless and keeps the
segments in their original order with their interior characters, but the
renderer drops whitespace-only segments and joins the rendered segments
with single newline characters, so each kept segment's rendering appears
contiguously in the paragraph's output rather than separated by the
original characters. -/
theorem c3_amended (p : List Char) :
    concatAll (urlSplit p) = p ∧
    ∀ c ∈ urlSplit p, allWS c = false →
      containsSeg (renderChunk c) (renderParagraph p) = true := by
  refine ⟨concatAll_urlSplit p, ?_⟩
  intro c hc hws
  have hmem : renderChunk c ∈ ((urlSplit p).filter (fun c => !allWS c)).map renderChunk :=
    List.mem_map_of_mem _ (List.mem_filter.mpr ⟨hc, by simp [hws]⟩)
  obtain ⟨pre, post, hsplit⟩ := joinSep_mem_split (strL "\n") _ _ hmem
  rw [renderParagraph, hsplit]
  have hassoc : strL "<p>" ++ (pre ++ renderChunk c ++ post) ++ strL "</p>" =
      (strL "<p>" ++ pre) ++ renderChunk c ++ (post ++ strL "</p>") := by
    simp [List.append_assoc]
  rw [hassoc]
  exact containsSeg_middle _ _ _

/-- C3, amended, witness at a concrete paragraph. -/
theorem c3_amended_witness :
    concatAll (urlSplit (strL "a https://b c")) = strL "a https://b c" ∧
    containsSeg (renderChunk (strL "https://b")) (renderParagraph (strL "a https://b c")) = true :=
  ⟨(c3_amended (strL "a https://b c")).1,
   (c3_amended (strL "a https://b c")).2 (strL "https://b") (by decide) (by decide)⟩

/-- C7, counterexample: the input `"\n\nBody"` satisfies the header
condition (three lines, empty second line, first line of length 0 ≤ 100),
so the split finds a header — yet no `<h1>` element is emitted for the
first line, because `plaintext` only emits the heading when the header
string is non-empty (truthy); in particular the output is not the
heading-then-body document the claim as stated would require. -/
theorem c7_counterexample :
    headerCond (strL "\n\nBody") = true ∧
    plaintext (strL "\n\nBody") = strL "<p>Body</p>" ∧
    containsSeg (strL "<h1>") (plaintext (strL "\n\nBody")) = false ∧
    plaintext (strL "\n\nBody") ≠ strL "<h1></h1>\n<p>Body</p>" :=
  ⟨by decide, by decide, by decide, by decide⟩

/-- C7, amended: the header/body split finds a header exactly when the
text has more than two lines, the second line is exactly empty and the
first line has length at most 100 characters; in that case the body is
the lines from the third onward rejoined with newline separators, and
the first line is emitted as an HTML level-1 heading (HTML-escaped) only
when it is non-empty — an empty first line produces no heading element;
otherwise no heading is emitted and the entire input is the body. -/
theorem c7_amended (text : List Char) :
    (2 < (pySplitlines text).length ∧ (pySplitlines text).getD 1 [] = [] ∧
        ((pySplitlines text).getD 0 []).length ≤ 100 →
      splitHeader text = ((pySplitlines text).getD 0 [],
        joinSep (strL "\n") ((pySplitlines text).drop 2))) ∧
    (¬(2 < (pySplitlines text).length ∧ (pySplitlines text).getD 1 [] = [] ∧
        ((pySplitlines text).getD 0 []).length ≤ 100) →
      splitHeader text = ([], text) ∧
      plaintext text = joinSep (strL "\n") (renderParagraphs text)) ∧
    ((splitHeader text).1 = [] →
      plaintext text = joinSep (strL "\n") (renderParagraphs (splitHeader text).2)) ∧
    ((splitHeader text).1 ≠ [] →
      plaintext text = joinSep (strL "\n")
        ((strL "<h1>" ++ escapeHtml (splitHeader text).1 ++ strL "</h1>") ::
          renderParagraphs (splitHeader text).2)) := by
  have hempty : (splitHeader text).1 = [] →
      plaintext text = joinSep (strL "\n") (renderParagraphs (splitHeader text).2) := by
    intro h
    simp only [plaintext]
    rw [h]
    simp
  have hpos : 2 < (pySplitlines text).length ∧ (pySplitlines text).getD 1 [] = [] ∧
      ((pySplitlines text).getD 0 []).length ≤ 100 →
      splitHeader text = ((pySplitlines text).getD 0 [],
        joinSep (strL "\n") ((pySplitlines text).drop 2)) := by
    intro hcond
    simp only [splitHeader]
    rw [if_pos hcond]
  have hshNeg : ¬(2 < (pySplitlines text).length ∧ (pySplitlines text).getD 1 [] = [] ∧
      ((pySplitlines text).getD 0 []).length ≤ 100) →
      splitHeader text = ([], text) := by
    intro h
    simp only [splitHeader]
    rw [if_neg h]
  refine ⟨hpos, ?_, hempty, ?_⟩
  · intro h
    have hs := hshNeg h
    refine ⟨hs, ?_⟩
    have he := hempty (by rw [hs])
    rw [he, hs]
  · intro h
    have hne : (splitHeader text).1.isEmpty = false := by
      cases hI : (splitHeader text).1.isEmpty
      · rfl
      · exact absurd (List.isEmpty_iff.mp hI) h
    simp only [plaintext]
    rw [hne]
    simp

/-- C7, amended, witness: a concrete titled input exercises the
header-found and heading-emitted parts, and a concrete single-line input
exercises the no-header part. -/
theorem c7_amended_witness :
    splitHeader (strL "T\n\nB") = ((pySplitlines (strL "T\n\nB")).getD 0 [],
      joinSep (strL "\n") ((pySplitlines (strL "T\n\nB")).drop 2)) ∧
    plaintext (strL "T\n\nB") = joinSep (strL "\n")
      ((strL "<h1>" ++ escapeHtml (splitHeader (strL "T\n\nB")).1 ++ strL "</h1>") ::
        renderParagraphs (splitHeader (strL "T\n\nB")).2) ∧
    plaintext (strL "no header here") = joinSep (strL "\n")
      (renderParagraphs (strL "no header here")) :=
  ⟨(c7_amended (strL "T\n\nB")).1 (by decide),
   (c7_amended (strL "T\n\nB")).2.2.2 (by decide),
   ((c7_amended (strL "no header here")).2.1 (by decide)).2⟩

/-- C9: when the first two lines are empty and there are more than two
lines, the empty first line is taken as the header, no heading element is
emitted for it, and only the content from the third line onward is
rendered — the first two lines are silently discarded. -/
theorem c9_empty_header_discarded (text : List Char)
    (hlen : 2 < (pySplitlines text).length)
    (h0 : (pySplitlines text).getD 0 [] = [])
    (h1 : (pySplitlines text).getD 1 [] = []) :
    splitHeader text = ([], joinSep (strL "\n") ((pySplitlines text).drop 2)) ∧
    plaintext text = joinSep (strL "\n")
      (renderParagraphs (joinSep (strL "\n") ((pySplitlines text).drop 2))) := by
  have hcond : 2 < (pySplitlines text).length ∧ (pySplitlines text).getD 1 [] = [] ∧
      ((pySplitlines text).getD 0 []).length ≤ 100 := ⟨hlen, h1, by rw [h0]; simp⟩
  have hsh : splitHeader text = ([], joinSep (strL "\n") ((pySplitlines text).drop 2)) := by
    simp only [splitHeader]
    rw [if_pos hcond, h0]
  refine ⟨hsh, ?_⟩
  simp only [plaintext, hsh]
  simp

/-- C9, witness at the concrete input `"\n\nBody"`. -/
theorem c9_witness :
    plaintext (strL "\n\nBody") = joinSep (strL "\n")
      (renderParagraphs (joinSep (strL "\n") ((pySplitlines (strL "\n\nBody")).drop 2))) :=
  (c9_empty_header_discarded (strL "\n\nBody") (by decide) (by decide) (by decide)).2

/-- C6: saving a state whose `repo` field holds an arbitrary string and
loading the produced file into a fresh default state recovers exactly the
original `repo` value. -/
theorem c6_state_roundtrip (r : List Char) :
    (loads (dumps ⟨r, []⟩)).map (fun kvs => (applyLoaded defaultState kvs).repo) =
      some r := by
  rw [loads_dumps]
  simp only [Option.map_some']
  simp [applyLoaded, setAttr]

/-- C10: whatever keys the loaded record contained, loading succeeds (the
fold over `setattr` is total) and the file the save operation then writes
has exactly the declared field names — `repo` alone — as its top-level
keys. -/
theorem c10_saved_keys (kvs : List (List Char × List Char)) :
    (loads (dumps (applyLoaded defaultState kvs))).map (fun l => l.map Prod.fst) =
      some [strL "repo"] := by
  rw [loads_dumps]
  simp

/-- C5: with a valid `--state` location, invoking `open` on a repository
path without a `.git` directory exits with a usage error naming that path
and the state file untouched (nothing loaded or written); on a repository
with a `.git` directory the run succeeds and the persisted state's `repo`
field equals the supplied path. -/
theorem c5_open_validation (fs : FileSystem) (flag env : Option (List Char))
    (repoArg : List Char)
    (hp : (fs.pathExists (parentPath (resolveStatePath flag env)) &&
           fs.isDir (parentPath (resolveStatePath flag env))) = true)
    (hd : fs.isDir (resolveStatePath flag env) = false) :
    ((fs.pathExists (repoArg ++ strL "/.git") &&
        fs.isDir (repoArg ++ strL "/.git")) = false →
      runCLI fs flag env repoArg =
        ⟨.usage, some (strL "not a git repository: " ++ repoArg),
         fs.file (resolveStatePath flag env)⟩) ∧
    ((fs.pathExists (repoArg ++ strL "/.git") &&
        fs.isDir (repoArg ++ strL "/.git")) = true →
      (∀ content, fs.file (resolveStatePath flag env) = some content →
        (loads content).isSome = true) →
      ∃ out, runCLI fs flag env repoArg = ⟨.ok, none, some out⟩ ∧
        (loads out).map (fun kvs => (applyLoaded defaultState kvs).repo) = some repoArg) := by
  constructor
  · intro hgit
    simp [runCLI, hp, hd, hgit]
  · intro hgit hload
    cases hfile : fs.file (resolveStatePath flag env) with
    | none =>
      refine ⟨dumps ⟨repoArg, []⟩, ?_, ?_⟩
      · simp [runCLI, hp, hd, hgit, hfile]
        rfl
      · rw [loads_dumps]
        simp [applyLoaded, setAttr]
    | some content =>
      have hsome := hload content hfile
      obtain ⟨kvs, hkvs⟩ := Option.isSome_iff_exists.mp hsome
      refine ⟨dumps { applyLoaded defaultState kvs with repo := repoArg }, ?_, ?_⟩
      · simp [runCLI, hp, hd, hgit, hfile, hkvs]
      · rw [loads_dumps]
        simp [applyLoaded, setAttr]

/-- C5, witness: both halves at concrete filesystems — a repository
without `.git` is rejected with the message naming it, and a fresh open
persists the repository path. -/
theorem c5_witness :
    runCLI fsNoGit (some (strL "/s/st")) none (strL "/r") =
      ⟨.usage, some (strL "not a git repository: " ++ strL "/r"), none⟩ ∧
    ∃ out, runCLI fsFresh (some (strL "/s/st")) none (strL "/r") = ⟨.ok, none, some out⟩ ∧
      (loads out).map (fun kvs => (applyLoaded defaultState kvs).repo) =
        some (strL "/r") :=
  ⟨(c5_open_validation fsNoGit (some (strL "/s/st")) none (strL "/r")
      (by decide) (by decide)).1 (by decide),
   (c5_open_validation fsFresh (some (strL "/s/st")) none (strL "/r")
      (by decide) (by decide)).2 (by decide)
      (fun content hc => Option.noConfusion hc)⟩

/-- C1: on a state file holding unparseable TOML, the run terminates
fatally (non-zero exit, diagnostic) as the claim says — but the corrupt
file is not left unchanged: the destructor-triggered dump still runs on
the partially-constructed object and atomically replaces the corrupt
state file with the serialised defaults. -/
theorem c1_corrupt_state_overwritten :
    runCLI fsCorrupt (some (strL "/s/st")) none (strL "/r") =
      ⟨.fatal, some (strL "TomlDecodeError"), some (strL "repo = \"\"\n")⟩ ∧
    fsCorrupt.file (strL "/s/st") = some (strL "[[[") ∧
    (strL "repo = \"\"\n") ≠ (strL "[[[") :=
  ⟨by decide, by decide, by decide⟩
